import Mathlib

/-!
Verification of the stockit opportunity-scanner core against its
natural-language specification.

The embedding translates the JavaScript/TypeScript source into Lean:

* JS numbers are modelled as exact rationals (`ℚ`).  `Math.sqrt` is modelled
  by `Rat.sqrt` (exact on perfect squares; no property proved here depends on
  its value at a non-square).  Division by zero follows Lean's `x / 0 = 0`
  convention except where a claim is actually about the JS `NaN` outcome, in
  which case a separate `Option ℚ`-valued model (`none` = no finite result)
  is used (`calculateVolatilityJS`).
* `Number(x.toFixed(d))` is modelled as round-half-up to `d` decimals
  (`roundTo`); the concrete inputs used in theorems avoid ties.
* JS `Map` (insertion-ordered, set-in-place) is modelled as an association
  list (`assocSet`, `assocGet`, `assocDelete`); JS `Set` as an
  insertion-ordered duplicate-free list.
* Asynchronous control flow is modelled by explicit state-passing: each
  `await`-free handler body becomes one state-transition function, and
  timers/event interleavings become explicit event traces.
-/

namespace StockIt

/-! ## ScoringEngine (src/unnamed/part_009, helper functions)

`returnsOf p` is the shared loop `for (i = 1; i < p.length; i++)
returns.push((p[i] - p[i-1]) / p[i-1])`. -/

def returnsOf (prices : List ℚ) : List ℚ :=
  (List.range (prices.length - 1)).map fun j =>
    (prices.getD (j + 1) 0 - prices.getD j 0) / prices.getD j 0

/-- Embedding of `calculateVolatility` (part_009 lines 201-210): standard
deviation of simple returns; `if (!prices.length) return 0`.  For a
one-element list the JS code divides by `returns.length = 0`; here that
follows the `ℚ` convention `0 / 0 = 0` — see `calculateVolatilityJS` for the
NaN-faithful model of exactly that case. -/
def calculateVolatility (prices : List ℚ) : ℚ :=
  if prices.length = 0 then 0
  else
    let returns := returnsOf prices
    let mean := returns.sum / (returns.length : ℚ)
    let variance := (returns.map fun b => (b - mean) ^ 2).sum / (returns.length : ℚ)
    Rat.sqrt variance

/-- JS division with no finite result (`0/0 = NaN`, `x/0 = ±Infinity`)
modelled as `none`. -/
def jsDiv (a b : ℚ) : Option ℚ :=
  if b = 0 then none else some (a / b)

/-- NaN-faithful model of `calculateVolatility`: every division that JS would
evaluate is performed with `jsDiv`, so a division by zero propagates as
`none` exactly where JS propagates NaN/Infinity.  Mirrors the same source
lines as `calculateVolatility`. -/
def calculateVolatilityJS (prices : List ℚ) : Option ℚ :=
  if prices.length = 0 then some 0
  else do
    let returns ← (List.range (prices.length - 1)).mapM fun j =>
      jsDiv (prices.getD (j + 1) 0 - prices.getD j 0) (prices.getD j 0)
    let mean ← jsDiv returns.sum (returns.length : ℚ)
    let variance ← jsDiv (returns.map fun b => (b - mean) ^ 2).sum (returns.length : ℚ)
    pure (Rat.sqrt variance)

/-- Embedding of `calculateMarketCorrelation` (part_009 lines 212-238):
Pearson correlation of the two simple-return series; 0 on length mismatch or
empty input.  The final `numerator / Math.sqrt(stockDenom * marketDenom)` is
taken with the `ℚ` zero-division convention. -/
def calculateMarketCorrelation (stockPrices marketPrices : List ℚ) : ℚ :=
  if stockPrices.length ≠ marketPrices.length ∨ stockPrices.length = 0 then 0
  else
    let stockReturns := returnsOf stockPrices
    let marketReturns := returnsOf marketPrices
    let stockMean := stockReturns.sum / (stockReturns.length : ℚ)
    let marketMean := marketReturns.sum / (marketReturns.length : ℚ)
    let numerator :=
      ((stockReturns.zip marketReturns).map fun q =>
        (q.1 - stockMean) * (q.2 - marketMean)).sum
    let stockDenom := (stockReturns.map fun r => (r - stockMean) ^ 2).sum
    let marketDenom := (marketReturns.map fun r => (r - marketMean) ^ 2).sum
    numerator / Rat.sqrt (stockDenom * marketDenom)

/-- Embedding of `calculateConsistency` (part_009 lines 251-264): the fraction
of consecutive move pairs with matching strict sign, over the
`prices.length - 2` triplets; 0 when `prices.length < 3`. -/
def calculateConsistency (prices : List ℚ) : ℚ :=
  if prices.length < 3 then 0
  else
    let consistentMoves := (List.range (prices.length - 2)).countP fun j =>
      let currentMove := prices.getD (j + 2) 0 - prices.getD (j + 1) 0
      let previousMove := prices.getD (j + 1) 0 - prices.getD j 0
      decide ((0 < currentMove ∧ 0 < previousMove) ∨ (currentMove < 0 ∧ previousMove < 0))
    (consistentMoves : ℚ) / ((prices.length : ℚ) - 2)

/-- The weight table `[0.15, 0.2, 0.25, 0.35, 0.45]` of
`calculateTrendStrength`. -/
def trendWeights : List ℚ := [0.15, 0.2, 0.25, 0.35, 0.45]

/-- The momentum term of `calculateTrendStrength`: `+0.02` when
`prices.length >= 3` and the most recent return strictly exceeds the one
before it. -/
def momentumBonus (prices : List ℚ) : ℚ :=
  if 3 ≤ prices.length then
    let lastChange :=
      (prices.getD (prices.length - 1) 0 - prices.getD (prices.length - 2) 0) /
        prices.getD (prices.length - 2) 0
    let prevChange :=
      (prices.getD (prices.length - 2) 0 - prices.getD (prices.length - 3) 0) /
        prices.getD (prices.length - 3) 0
    if prevChange < lastChange then 0.02 else 0
  else 0

/-- Embedding of `calculateTrendStrength` (part_009 lines 266-288).  The loop
`for (i = 1; i < prices.length && i <= weights.length; i++)` pushes
`change_i * weights[i-1]` where `change_i` is the `i`-th MOST RECENT return;
the result is `Math.max(weightedTrend * 5 + momentum, 0)`. -/
def calculateTrendStrength (prices : List ℚ) : ℚ :=
  if prices.length < 2 then 0
  else
    let changes := (List.range (min (prices.length - 1) 5)).map fun k =>
      let i := k + 1
      ((prices.getD (prices.length - i) 0 - prices.getD (prices.length - i - 1) 0) /
          prices.getD (prices.length - i - 1) 0) * trendWeights.getD (i - 1) 0
    max (changes.sum * 5 + momentumBonus prices) 0

/-- Embedding of `calculateConfidence` (part_009 lines 240-249). -/
def calculateConfidence (volatility correlation : ℚ) (prices : List ℚ) : ℚ :=
  let volatilityScore := max 0 (1 - volatility * 8)
  let correlationScore := |correlation|
  let trendScore := calculateTrendStrength prices
  let consistencyScore := calculateConsistency prices
  volatilityScore * 0.2 + correlationScore * 0.2 + trendScore * 0.4 + consistencyScore * 0.2

/-! ## Claim-side formulas for trend strength (C2)

`trendStrength_claim` is written from the claim's words, to compare against
the source: weighted sum of the at most five most recent returns with the
weights assigned from the OLDEST return of the window to the MOST RECENT,
plus the momentum bonus, clamped below at 0 (and no other scaling). -/

def trendStrength_claim (prices : List ℚ) : ℚ :=
  if prices.length < 2 then 0
  else
    let rets := returnsOf prices
    let window := rets.drop (rets.length - 5)
    max (((window.zip trendWeights).map fun q => q.1 * q.2).sum + momentumBonus prices) 0

/-- What the source actually computes, as a closed formula: weights are
zipped against the REVERSED return series (so 0.15 multiplies the most
recent return and 0.45 the oldest of the window), the weighted sum is
multiplied by 5, then the momentum bonus is added and the total clamped
below at 0. -/
def trendStrength_actual (prices : List ℚ) : ℚ :=
  if prices.length < 2 then 0
  else
    max (5 * (((returnsOf prices).reverse.zip trendWeights).map fun q => q.1 * q.2).sum +
      momentumBonus prices) 0

/-! ## OpportunityScanner (src/unnamed/part_009, `scanBlueChipStocks`) -/

/-- Model of `Number(x.toFixed(d))`: round half-up to `d` decimal places.
(JS rounds ties away from zero on the underlying binary double; the concrete
inputs used below avoid ties, where the two agree.) -/
def roundTo (d : ℕ) (x : ℚ) : ℚ := ((round (x * 10 ^ d) : ℤ) : ℚ) / 10 ^ d

/-- One symbol's entry of the request's `historical_data` map.  A symbol
missing from the map is represented by `⟨[], []⟩`, absorbing the source's
`historical_data[symbol]?.prices || []` defaults. -/
structure HistData where
  prices : List ℚ
  market_prices : List ℚ

structure Opportunity where
  symbol : String
  current_price : ℚ
  target_price : ℚ
  potential_gain : ℚ
  confidence : ℚ
  volatility : ℚ
  market_correlation : ℚ
deriving DecidableEq

/-- The intermediate values the per-symbol body of `scanBlueChipStocks`
computes before filtering and rounding (part_009 lines 302-341).  `none`
models the thrown `TypeError`: with an empty price list `currentPrice` is
`undefined` and the body's `currentPrice.toFixed(2)` throws before any
opportunity can be produced. -/
structure RawAnalysis where
  currentPrice : ℚ
  volatility : ℚ
  marketCorrelation : ℚ
  trendPrediction : ℚ
  potentialGain : ℚ
  confidence : ℚ

def analyzeRaw (h : HistData) : Option RawAnalysis :=
  match h.prices.getLast? with
  | none => none
  | some currentPrice =>
    let volatility := calculateVolatility h.prices
    let marketCorrelation := calculateMarketCorrelation h.prices h.market_prices
    let trendStrength := calculateTrendStrength h.prices
    let trendPrediction :=
      if 2 ≤ h.prices.length then currentPrice * (1 + trendStrength * 0.15)
      else currentPrice * 1.05
    let potentialGain := (trendPrediction - currentPrice) / currentPrice * 100
    let confidence := calculateConfidence volatility marketCorrelation h.prices
    some ⟨currentPrice, volatility, marketCorrelation, trendPrediction, potentialGain,
      confidence⟩

/-- The whole per-symbol callback of `scanBlueChipStocks`, try/catch
included: an exception yields `none` (the symbol's entry is `null`), and so
does failing the filter `potentialGain >= min_gain_potential && confidence >
0.5`; otherwise the rounded opportunity record is produced. -/
def processSymbol (d : String → HistData) (minGain : ℚ) (s : String) : Option Opportunity :=
  match analyzeRaw (d s) with
  | none => none
  | some r =>
    if minGain ≤ r.potentialGain ∧ 0.5 < r.confidence then
      some { symbol := s
             current_price := r.currentPrice
             target_price := r.trendPrediction
             potential_gain := roundTo 2 r.potentialGain
             confidence := roundTo 2 r.confidence
             volatility := roundTo 3 r.volatility
             market_correlation := roundTo 2 r.marketCorrelation }
    else none

/-- The comparator `(a, b) => b.potential_gain - a.potential_gain`:
descending by `potential_gain`. -/
def byGainDesc (a b : Opportunity) : Prop := b.potential_gain ≤ a.potential_gain

instance : DecidableRel byGainDesc := fun a b =>
  inferInstanceAs (Decidable (b.potential_gain ≤ a.potential_gain))

instance : IsTotal Opportunity byGainDesc :=
  ⟨fun a b => le_total b.potential_gain a.potential_gain⟩

instance : IsTrans Opportunity byGainDesc :=
  ⟨fun _ _ _ h1 h2 => le_trans h2 h1⟩

/-- Embedding of `scanBlueChipStocks` (part_009 lines 290-366): map every
symbol through the guarded per-symbol body, drop the `null`s, sort
descending by potential gain.  (JS's stable sort is modelled by insertion
sort; no statement below depends on the order of ties.) -/
def scanBlueChipStocks (symbols : List String) (d : String → HistData) (minGain : ℚ) :
    List Opportunity :=
  List.insertionSort byGainDesc (symbols.filterMap (processSymbol d minGain))

/-- Concrete scan input: every symbol carries four prices in geometric
progression with ratio 271/250 (return 8.4% per step) and no market series. -/
def dataC1 : String → HistData := fun _ => ⟨[15625000, 16937500, 18360250, 19902511], []⟩

/-- Concrete scan input for the isolation claim: symbol "BAD" has an empty
price list, so its processing throws; every other symbol has a well-formed
series. -/
def dataC5 : String → HistData := fun s =>
  if s = "BAD" then ⟨[], []⟩ else ⟨[100, 102, 104], []⟩

/-! ## ProviderClient rate-limit handling
(src/src/services/data.service.js, `polygon.interceptors.response`)

One logical request is modelled by the sequence of responses its successive
HTTP attempts receive.  The interceptor's error branch on a 429 waits
`retryAfter ? parseInt(retryAfter) * 1000 : 10000` milliseconds, then a
random 0-1s jitter, then re-issues the same request; a 404 resolves with
empty results; any other API error or a response-less failure throws. -/

inductive PolyResponse where
  | ok
  | rateLimited (retryAfter : Option ℕ)
  | notFound
  | apiError (status : ℕ)
  | networkError
deriving DecidableEq

inductive PolyOutcome where
  | success
  | emptyResults
  | thrown
  | pending
deriving DecidableEq

structure PolyRun where
  attempts : ℕ
  waits : List ℚ
  outcome : PolyOutcome
deriving DecidableEq

/-- The wait chosen for a 429: `retryAfter ? parseInt(retryAfter) * 1000 :
10000` (milliseconds), before jitter. -/
def rateLimitWait (retryAfter : Option ℕ) : ℚ :=
  match retryAfter with
  | some s => (s : ℚ) * 1000
  | none => 10000

/-- Run the interceptor against the given response trace; `jitters` supplies
the random 0-1s jitter drawn before each retry. -/
def runPolygonRequest (jitters : List ℚ) (responses : List PolyResponse) : PolyRun :=
  match responses with
  | [] => ⟨0, [], .pending⟩
  | .ok :: _ => ⟨1, [], .success⟩
  | .notFound :: _ => ⟨1, [], .emptyResults⟩
  | .apiError _ :: _ => ⟨1, [], .thrown⟩
  | .networkError :: _ => ⟨1, [], .thrown⟩
  | .rateLimited ra :: rest =>
    let r := runPolygonRequest jitters.tail rest
    ⟨r.attempts + 1, (rateLimitWait ra + jitters.headD 0) :: r.waits, r.outcome⟩

/-! ## SubscriptionManager
(src/frontend/src/services/websocket.service.ts, `WebSocketManager`)

JS `Map`s are association lists keeping insertion order, JS `Set`s
insertion-ordered duplicate-free lists.  `socketsCreated` counts the `new
WebSocket(...)` constructions, so "no reconnect was issued" is observable. -/

def assocSet {β : Type} (m : List (String × β)) (k : String) (v : β) : List (String × β) :=
  if m.any (fun e => e.1 == k) then
    m.map (fun e => if e.1 == k then (k, v) else e)
  else m ++ [(k, v)]

def assocGet {β : Type} (m : List (String × β)) (k : String) : Option β :=
  (m.find? (fun e => e.1 == k)).map (·.2)

def assocDelete {β : Type} (m : List (String × β)) (k : String) : List (String × β) :=
  m.filter (fun e => e.1 != k)

structure WSConfig where
  reconnectAttempts : ℕ := 5
  reconnectInterval : ℕ := 5000
  subscriptionBatchSize : ℕ := 10
  subscriptionBatchInterval : ℕ := 1000
deriving DecidableEq

structure WSState where
  connections : List String
  reconnectAttempts : List (String × ℕ)
  subscriptionQueue : List String
  socketsCreated : ℕ
deriving DecidableEq

/-- Embedding of `connectToSymbol` (websocket.service.ts lines 85-99).  If
the symbol is already in `connections` — even as a dead socket — it returns
at once.  Otherwise it constructs a socket (`canConnect s` says whether the
constructor succeeds), registers it, and zeroes the symbol's
reconnect-attempt counter; a constructor throw leaves the state untouched
and rethrows (the `Bool` is false). -/
def connectToSymbol (canConnect : String → Bool) (st : WSState) (s : String) :
    WSState × Bool :=
  if s ∈ st.connections then (st, true)
  else if canConnect s then
    ({ st with connections := st.connections ++ [s],
               reconnectAttempts := assocSet st.reconnectAttempts s 0,
               socketsCreated := st.socketsCreated + 1 }, true)
  else (st, false)

/-- Embedding of `unsubscribe` (lines 155-162): close and drop the
connection and the attempt counter, if a connection is registered. -/
def wsUnsubscribe (st : WSState) (s : String) : WSState :=
  if s ∈ st.connections then
    { st with connections := st.connections.erase s,
              reconnectAttempts := assocDelete st.reconnectAttempts s }
  else st

/-- Embedding of `handleDisconnection` (lines 137-153), the `onclose`
handler, with the `reconnectInterval` delay collapsed (nothing else runs in
the model meanwhile): read the attempt counter (0 when absent); below the
limit, bump it and call `connectToSymbol`; otherwise auto-unsubscribe. -/
def handleDisconnection (cfg : WSConfig) (canConnect : String → Bool) (st : WSState)
    (s : String) : WSState :=
  let attempts := (assocGet st.reconnectAttempts s).getD 0
  if attempts < cfg.reconnectAttempts then
    let st1 := { st with reconnectAttempts := assocSet st.reconnectAttempts s (attempts + 1) }
    (connectToSymbol canConnect st1 s).1
  else
    wsUnsubscribe st s

/-- One iteration of the `while` loop of `processSubscriptionQueue` (lines
60-83): take the first `subscriptionBatchSize` queued symbols, run every
connect (each `connectToSymbol` body is synchronous, so `Promise.all`
executes them in order and every one runs even if an earlier one rejected),
and delete the batch from the queue only when ALL connects succeeded
(`Promise.all` rejects otherwise and the `catch` skips the deletes). -/
def connectFold (canConnect : String → Bool) (acc : WSState × Bool) (s : String) :
    WSState × Bool :=
  let r := connectToSymbol canConnect acc.1 s
  (r.1, acc.2 && r.2)

def processBatchStep (cfg : WSConfig) (canConnect : String → Bool) (st : WSState) :
    WSState :=
  let batch := st.subscriptionQueue.take cfg.subscriptionBatchSize
  let run := batch.foldl (connectFold canConnect) (st, true)
  { run.1 with
    subscriptionQueue :=
      if run.2 then st.subscriptionQueue.filter (fun q => !batch.contains q)
      else st.subscriptionQueue }

/-! ## UpdateReconciler (src/frontend/src/hooks/useStockUpdates.ts)

The hook keeps a `Map symbol → StockUpdate`; `processMessage` overwrites the
symbol's entry on every non-error message, and the batched mode's interval
callback delivers `Array.from(updates.values())` whenever the map is
nonempty.  The map is never cleared. -/

inductive MsgType where
  | trade
  | quote
  | error
deriving DecidableEq

structure MsgData where
  p : Option ℚ
  price : Option ℚ
  c : Option ℚ
  change : Option ℚ
  changePercent : Option ℚ
  v : Option ℚ
  volume : Option ℚ
deriving DecidableEq

structure WebSocketMessage where
  type : MsgType
  symbol : String
  data : MsgData
  timestamp : ℕ
deriving DecidableEq

/-- JS `a || b` on number fields: `a` unless it is absent or `0` (the one
falsy number that occurs here). -/
def jsOrQ (a b : Option ℚ) : Option ℚ :=
  match a with
  | some x => if x = 0 then b else some x
  | none => b

structure StockUpdate where
  symbol : String
  price : Option ℚ
  change : ℚ
  changePercent : ℚ
  volume : ℚ
  timestamp : ℕ
deriving DecidableEq

/-- The `update` record built by `processMessage` (useStockUpdates.ts lines
40-47).  `data.change || 0` equals `getD 0` since 0 is the only falsy
value in range. -/
def toStockUpdate (m : WebSocketMessage) : StockUpdate :=
  { symbol := m.symbol
    price := if m.type = MsgType.trade then jsOrQ m.data.p m.data.price else m.data.c
    change := m.data.change.getD 0
    changePercent := m.data.changePercent.getD 0
    volume := (jsOrQ m.data.v m.data.volume).getD 0
    timestamp := m.timestamp }

/-- Embedding of `processMessage` (lines 32-62): an `error` message only
surfaces a toast and leaves the update map alone; anything else overwrites
the symbol's entry (JS `Map.set`: in place, insertion order kept). -/
def reconcilerProcessMessage (st : List (String × StockUpdate)) (m : WebSocketMessage) :
    List (String × StockUpdate) :=
  if m.type = MsgType.error then st else assocSet st m.symbol (toStockUpdate m)

/-- What one firing of the batched-mode interval delivers (lines 98-109):
every value of the map, in map order, when the map is nonempty. -/
def flushDelivered (st : List (String × StockUpdate)) : List StockUpdate :=
  if 0 < st.length then st.map (·.2) else []

/-- An event in the life of the hook: a websocket message arriving, or the
batching interval firing. -/
inductive REvent where
  | message (m : WebSocketMessage)
  | flush
deriving DecidableEq

def reconcilerStep : List (String × StockUpdate) → REvent → List (String × StockUpdate)
  | st, .message m => reconcilerProcessMessage st m
  | st, .flush => st

/-- The update map after a trace of events. -/
def reconcilerState (evs : List REvent) : List (String × StockUpdate) :=
  evs.foldl reconcilerStep []

/-- The successive flush deliveries along a trace of events. -/
def reconcilerFlushes (evs : List REvent) : List (List StockUpdate) :=
  (evs.foldl (fun (acc : List (String × StockUpdate) × List (List StockUpdate)) e =>
    match e with
    | .message m => (reconcilerProcessMessage acc.1 m, acc.2)
    | .flush => (acc.1, acc.2 ++ [flushDelivered acc.1])) ([], [])).2

/-- Written from the claim's words: the latest `StockUpdate` received for
`s` over the trace, starting from a prior value `a` (last-write-wins). -/
def lastUpdateFrom (a : Option StockUpdate) (evs : List REvent) (s : String) :
    Option StockUpdate :=
  evs.foldl (fun acc e =>
    match e with
    | .message m =>
      if m.type ≠ MsgType.error ∧ m.symbol = s then some (toStockUpdate m) else acc
    | .flush => acc) a

/-- The latest `StockUpdate` received for `s` over the whole trace. -/
def lastUpdateSpec (evs : List REvent) (s : String) : Option StockUpdate :=
  lastUpdateFrom none evs s

/-- A concrete trade message for the reconciler counterexample. -/
def msgC9 : WebSocketMessage :=
  ⟨MsgType.trade, "AAPL", ⟨some 150, none, none, none, none, some 1000, none⟩, 17⟩

/-! ## Bounds for the score components -/

theorem calculateConsistency_nonneg (p : List ℚ) : 0 ≤ calculateConsistency p := by
  unfold calculateConsistency
  split
  · exact le_rfl
  · next h =>
    have h3 : 3 ≤ p.length := by omega
    have hq : (3 : ℚ) ≤ (p.length : ℚ) := by exact_mod_cast h3
    exact div_nonneg (by positivity) (by linarith)

theorem calculateConsistency_le_one (p : List ℚ) : calculateConsistency p ≤ 1 := by
  unfold calculateConsistency
  split
  · norm_num
  · next h =>
    have h3 : 3 ≤ p.length := by omega
    have hq : (3 : ℚ) ≤ (p.length : ℚ) := by exact_mod_cast h3
    rw [div_le_one (by linarith)]
    have hcount := List.countP_le_length
      (fun j =>
        let currentMove := p.getD (j + 2) 0 - p.getD (j + 1) 0
        let previousMove := p.getD (j + 1) 0 - p.getD j 0
        decide ((0 < currentMove ∧ 0 < previousMove) ∨ (currentMove < 0 ∧ previousMove < 0)))
      (l := List.range (p.length - 2))
    rw [List.length_range] at hcount
    have hcast : ((p.length - 2 : ℕ) : ℚ) = (p.length : ℚ) - 2 := by
      have : 2 ≤ p.length := by omega
      push_cast [this]
      ring
    calc ((List.range (p.length - 2)).countP _ : ℚ) ≤ ((p.length - 2 : ℕ) : ℚ) := by
          exact_mod_cast hcount
      _ = (p.length : ℚ) - 2 := hcast

theorem calculateTrendStrength_nonneg (p : List ℚ) : 0 ≤ calculateTrendStrength p := by
  unfold calculateTrendStrength
  split
  · exact le_rfl
  · exact le_max_right _ _

/-! ## Claims C2, C3, C4 -/

/-- C2 (amended): for every price sequence `p` with at least 2 elements,
`trendStrength(p)` equals 5 times the weighted sum of the most recent
returns (at most 5), with the weights `[0.15, 0.2, 0.25, 0.35, 0.45]`
assigned from the MOST RECENT return of the window to the OLDEST (not from
oldest to most recent as the claim states, and with the extra factor 5 the
claim omits), plus the momentum bonus of 0.02 exactly when `p` has at least
3 elements and the most recent return strictly exceeds the prior return,
with the total clamped below at 0. -/
theorem calculateTrendStrength_eq_actual (p : List ℚ) :
    calculateTrendStrength p = trendStrength_actual p := by
  unfold calculateTrendStrength trendStrength_actual
  by_cases h : p.length < 2
  · simp [h]
  · simp only [h, if_false]
    have hlist : (List.range (min (p.length - 1) 5)).map (fun k =>
        ((p.getD (p.length - (k + 1)) 0 - p.getD (p.length - (k + 1) - 1) 0) /
            p.getD (p.length - (k + 1) - 1) 0) * trendWeights.getD (k + 1 - 1) 0)
        = ((returnsOf p).reverse.zip trendWeights).map fun q => q.1 * q.2 := by
      apply List.ext_getElem
      · simp [returnsOf, trendWeights]
      · intro i h1 h2'
        simp only [List.getElem_map, List.getElem_range, List.getElem_zip,
          List.getElem_reverse, returnsOf, List.length_map, List.length_range]
        have hi : i < min (p.length - 1) 5 := by simpa using h1
        have e1 : p.length - 1 - 1 - i + 1 = p.length - (i + 1) := by omega
        have e2 : p.length - 1 - 1 - i = p.length - (i + 1) - 1 := by omega
        have e3 : i + 1 - 1 = i := by omega
        rw [e1, e2, e3]
        have hw : i < trendWeights.length := by
          simp only [trendWeights, List.length_cons, List.length_nil]
          omega
        rw [List.getD_eq_getElem trendWeights 0 hw]
    rw [hlist, mul_comm]

/-- C2 (counterexample): at `p = [1, 2]` the source computes `0.15 · 1 · 5 =
0.75`, while the claim's formula (weights from the oldest return of the
window to the most recent, no factor 5) gives `0.15`. -/
theorem calculateTrendStrength_claim_cex :
    calculateTrendStrength [1, 2] = 3 / 4 ∧ trendStrength_claim [1, 2] = 3 / 20 ∧
      calculateTrendStrength [1, 2] ≠ trendStrength_claim [1, 2] := by
  refine ⟨?_, ?_, ?_⟩ <;>
    norm_num [calculateTrendStrength, trendStrength_claim, returnsOf, momentumBonus,
      trendWeights, List.range_succ]

/-- C3 (amended): the confidence value is always nonnegative, and lies in
`[0, 1]` whenever `volatility ≥ 0`, `|correlation| ≤ 1` and the trend score
of the price sequence is at most 1.  (Without the last hypothesis the upper
bound fails: see the counterexample, where a steep but perfectly ordinary
price sequence pushes the trend score far above 1.) -/
theorem calculateConfidence_bounds (volatility correlation : ℚ) (p : List ℚ)
    (hv : 0 ≤ volatility) (hc : |correlation| ≤ 1)
    (ht : calculateTrendStrength p ≤ 1) :
    0 ≤ calculateConfidence volatility correlation p ∧
      calculateConfidence volatility correlation p ≤ 1 := by
  unfold calculateConfidence
  have h1 : (0 : ℚ) ≤ max 0 (1 - volatility * 8) := le_max_left _ _
  have h2 : max 0 (1 - volatility * 8) ≤ 1 := max_le (by norm_num) (by linarith)
  have h3 : (0 : ℚ) ≤ |correlation| := abs_nonneg _
  have h4 := calculateConsistency_nonneg p
  have h5 := calculateConsistency_le_one p
  have h6 := calculateTrendStrength_nonneg p
  constructor <;> [positivity; linarith]

theorem calculateConfidence_bounds_witness :
    0 ≤ calculateConfidence 0 0 [] ∧ calculateConfidence 0 0 [] ≤ 1 :=
  calculateConfidence_bounds 0 0 [] le_rfl (by norm_num)
    (by norm_num [calculateTrendStrength])

/-- C3 (counterexample): at `volatility = 0.04`, `correlation = 0.8` and the
rising price sequence `[16, 24, 36, 54, 81]` (all inputs individually in
range and non-degenerate), the confidence comes out to `1.446 > 1`, because
the trend score of that sequence is `2.375`. -/
theorem calculateConfidence_exceeds_one_cex :
    calculateConfidence (1 / 25) (4 / 5) [16, 24, 36, 54, 81] = 723 / 500 ∧
      ¬ calculateConfidence (1 / 25) (4 / 5) [16, 24, 36, 54, 81] ≤ 1 := by
  have hval : calculateConfidence (1 / 25) (4 / 5) [16, 24, 36, 54, 81] = 723 / 500 := by
    norm_num [calculateConfidence, calculateTrendStrength, calculateConsistency,
      returnsOf, momentumBonus, trendWeights, List.range_succ, abs_of_pos]
  exact ⟨hval, by rw [hval]; norm_num⟩

/-- C4 (bug exhibit): on a one-element price list the source computes the
mean of an EMPTY returns array as `0 / 0`, so `calculateVolatility` yields
NaN (modelled: `none`), not the documented 0.  The guard only catches the
empty list.  The companion defaults the claim gets right are included:
trend strength is 0 for fewer than 2 prices and consistency is 0 for fewer
than 3, and none of these functions throws. -/
theorem calculateVolatilityJS_singleton_nan :
    calculateVolatilityJS [100] = none ∧ calculateVolatilityJS [] = some 0 ∧
      calculateTrendStrength [100] = 0 ∧ calculateTrendStrength [] = 0 ∧
      calculateConsistency [100, 101] = 0 := by
  refine ⟨?_, ?_, ?_, ?_, ?_⟩ <;>
    norm_num [calculateVolatilityJS, jsDiv, List.mapM.loop, calculateTrendStrength,
      calculateConsistency]

/-! ## Claims C1 and C5: the scanner -/

theorem processSymbol_eq_some {d : String → HistData} {m : ℚ} {s : String} {o : Opportunity} :
    processSymbol d m s = some o ↔ ∃ r, analyzeRaw (d s) = some r ∧
      m ≤ r.potentialGain ∧ 0.5 < r.confidence ∧
      o = ⟨s, r.currentPrice, r.trendPrediction, roundTo 2 r.potentialGain,
        roundTo 2 r.confidence, roundTo 3 r.volatility, roundTo 2 r.marketCorrelation⟩ := by
  cases hr : analyzeRaw (d s) with
  | none => simp [processSymbol, hr]
  | some r =>
    simp only [processSymbol, hr, Option.some.injEq]
    split_ifs with hc
    · constructor
      · intro h
        obtain rfl : _ = o := Option.some.inj h
        exact ⟨r, rfl, hc.1, hc.2, rfl⟩
      · rintro ⟨r', rfl, _, _, rfl⟩
        rfl
    · constructor
      · intro h
        exact h.elim
      · rintro ⟨r', rfl, h1, h2, rfl⟩
        exact absurd ⟨h1, h2⟩ hc

theorem mem_scan_iff {symbols : List String} {d : String → HistData} {m : ℚ}
    {o : Opportunity} :
    o ∈ scanBlueChipStocks symbols d m ↔ ∃ s ∈ symbols, processSymbol d m s = some o := by
  unfold scanBlueChipStocks
  rw [(List.perm_insertionSort byGainDesc _).mem_iff, List.mem_filterMap]

/-- C1 (amended): the returned sequence is sorted descending by
`potential_gain`; every returned opportunity comes from a symbol whose RAW
(pre-rounding) potential gain is at least `minGainPercent` and whose RAW
confidence is strictly above 0.5, and its stored gain/confidence are those
values rounded to 2 decimals, its volatility to 3; with `minGainPercent =
5` a symbol whose computed potential gain is 4.99 is excluded and one whose
computed potential gain is 5.00 with confidence above 0.5 is included.
(The claim as frozen asserts the threshold inequalities of the ROUNDED
stored fields; that fails — see the counterexample, where a raw confidence
of 0.5008 is stored as exactly 0.5.) -/
theorem scanBlueChipStocks_spec (symbols : List String) (d : String → HistData)
    (minGain : ℚ) :
    List.Sorted byGainDesc (scanBlueChipStocks symbols d minGain)
    ∧ (∀ o ∈ scanBlueChipStocks symbols d minGain, ∃ s ∈ symbols, ∃ r,
        analyzeRaw (d s) = some r ∧ minGain ≤ r.potentialGain ∧ 0.5 < r.confidence ∧
        o.symbol = s ∧ o.potential_gain = roundTo 2 r.potentialGain ∧
        o.confidence = roundTo 2 r.confidence ∧ o.volatility = roundTo 3 r.volatility ∧
        o.market_correlation = roundTo 2 r.marketCorrelation)
    ∧ (∀ s r, analyzeRaw (d s) = some r → r.potentialGain = 499 / 100 →
        ∀ o ∈ scanBlueChipStocks symbols d 5, o.symbol ≠ s)
    ∧ (∀ s ∈ symbols, ∀ r, analyzeRaw (d s) = some r → r.potentialGain = 5 →
        0.5 < r.confidence → ∃ o ∈ scanBlueChipStocks symbols d 5, o.symbol = s) := by
  refine ⟨List.sorted_insertionSort byGainDesc _, ?_, ?_, ?_⟩
  · intro o ho
    obtain ⟨s, hs, hps⟩ := mem_scan_iff.1 ho
    obtain ⟨r, hr, h1, h2, rfl⟩ := processSymbol_eq_some.1 hps
    exact ⟨s, hs, r, hr, h1, h2, rfl, rfl, rfl, rfl, rfl⟩
  · intro s r hr hgain o ho hsym
    obtain ⟨s0, hs0, hps⟩ := mem_scan_iff.1 ho
    obtain ⟨r0, hr0, h1, _, rfl⟩ := processSymbol_eq_some.1 hps
    subst hsym
    rw [hr] at hr0
    obtain rfl : r = r0 := Option.some.inj hr0
    rw [hgain] at h1
    norm_num at h1
  · intro s hs r hr hgain hconf
    have hsome : processSymbol d 5 s = some ⟨s, r.currentPrice, r.trendPrediction,
        roundTo 2 r.potentialGain, roundTo 2 r.confidence, roundTo 3 r.volatility,
        roundTo 2 r.marketCorrelation⟩ :=
      processSymbol_eq_some.2 ⟨r, hr, by rw [hgain], hconf, rfl⟩
    exact ⟨_, mem_scan_iff.2 ⟨s, hs, hsome⟩, rfl⟩

theorem analyzeRaw_dataC1 :
    analyzeRaw (dataC1 "AAA") =
      some ⟨19902511, 0, 0, 103274129579 / 5000, 189 / 50, 313 / 625⟩ := by
  norm_num [analyzeRaw, dataC1, calculateVolatility, calculateMarketCorrelation,
    calculateConfidence, calculateTrendStrength, calculateConsistency, returnsOf,
    momentumBonus, trendWeights, List.range_succ, Rat.sqrt]

/-- C1 (counterexample): with `minGainPercent = 3` and a symbol whose raw
potential gain is 3.78 and raw confidence 0.5008, the scan includes the
symbol but stores `confidence = roundTo 2 0.5008 = 0.5`, so the returned
opportunity does NOT satisfy `confidence > 0.5` as the claim states it. -/
theorem scanBlueChipStocks_rounded_confidence_cex :
    (scanBlueChipStocks ["AAA"] dataC1 3).map Opportunity.confidence = [1 / 2] ∧
      ¬ ∀ o ∈ scanBlueChipStocks ["AAA"] dataC1 3, (0.5 : ℚ) < o.confidence := by
  have hps : processSymbol dataC1 3 "AAA" =
      some ⟨"AAA", 19902511, 103274129579 / 5000, 189 / 50, 1 / 2, 0, 0⟩ := by
    refine processSymbol_eq_some.2 ⟨_, analyzeRaw_dataC1, by norm_num, by norm_num, ?_⟩
    simp only [Opportunity.mk.injEq]
    norm_num [roundTo, round_eq]
  have hmap : (scanBlueChipStocks ["AAA"] dataC1 3).map Opportunity.confidence = [1 / 2] := by
    simp [scanBlueChipStocks, List.filterMap_cons, hps, List.insertionSort,
      List.orderedInsert]
  refine ⟨hmap, fun h => ?_⟩
  have hall : ∀ c ∈ (scanBlueChipStocks ["AAA"] dataC1 3).map Opportunity.confidence,
      (0.5 : ℚ) < c := by
    intro c hc
    obtain ⟨o, ho, rfl⟩ := List.mem_map.1 hc
    exact h o ho
  rw [hmap] at hall
  have h2 := hall (1 / 2) (by simp)
  norm_num at h2

/-- C5: a symbol whose processing throws (modelled: `analyzeRaw = none`, as
happens for an empty price list) contributes nothing to the scan, and the
scan of the remaining symbols is exactly what it would have been without
that symbol — one symbol's failure never aborts or perturbs the batch. -/
theorem scan_symbol_isolation (xs ys : List String) (s : String) (d : String → HistData)
    (m : ℚ) (h : analyzeRaw (d s) = none) :
    scanBlueChipStocks (xs ++ s :: ys) d m = scanBlueChipStocks (xs ++ ys) d m := by
  unfold scanBlueChipStocks
  rw [List.filterMap_append, List.filterMap_append, List.filterMap_cons]
  simp [processSymbol, h]

theorem scan_symbol_isolation_witness :
    scanBlueChipStocks ["AAPL", "BAD"] dataC5 5 = scanBlueChipStocks ["AAPL"] dataC5 5 :=
  scan_symbol_isolation ["AAPL"] [] "BAD" dataC5 5 (by simp [analyzeRaw, dataC5])

/-! ## Claim C6: the Polygon 429 interceptor -/

/-- C6 (counterexample): four consecutive 429s without a `Retry-After`
header followed by a success take 5 attempts — the interceptor has no
3-attempt cap — and with `Retry-After: 2` the wait is `2 * 1000 = 2000` ms,
not `max(retry-after, default) = 10000` ms. -/
theorem polygon_rateLimit_cex :
    (runPolygonRequest [0, 0, 0, 0]
        (List.replicate 4 (PolyResponse.rateLimited none) ++ [PolyResponse.ok])).attempts = 5
    ∧ ¬ (runPolygonRequest [0, 0, 0, 0]
        (List.replicate 4 (PolyResponse.rateLimited none) ++ [PolyResponse.ok])).attempts ≤ 3
    ∧ rateLimitWait (some 2) = 2000
    ∧ rateLimitWait (some 2) ≠ max ((2 : ℚ) * 1000) 10000 := by
  refine ⟨?_, ?_, ?_, ?_⟩ <;>
    norm_num [runPolygonRequest, rateLimitWait, List.replicate]

/-- C6 (amended): on a 429 the client waits `retryAfter * 1000` ms when the
header is present (otherwise the 10000 ms default — the header is used
as-is, not `max(header, default)`) plus a nonnegative jitter, then retries
the same logical request, with no bound on the number of attempts; in
particular a single 429 carrying `Retry-After: 2` causes exactly one retry
(2 attempts total), issued no earlier than 2000 ms plus the jitter after
the 429. -/
theorem polygon_rateLimit_retry (j : ℚ) (js : List ℚ) (rest : List PolyResponse)
    (ra : Option ℕ) (hj : 0 ≤ j) :
    runPolygonRequest (j :: js) (PolyResponse.rateLimited (some 2) :: PolyResponse.ok :: rest)
      = ⟨2, [2000 + j], PolyOutcome.success⟩
    ∧ (2000 : ℚ) ≤ 2000 + j
    ∧ (runPolygonRequest (j :: js) (PolyResponse.rateLimited ra :: rest)).waits.head?
      = some (rateLimitWait ra + j) := by
  refine ⟨?_, by linarith, ?_⟩
  · simp [runPolygonRequest, rateLimitWait]
    norm_num
  · simp [runPolygonRequest]

theorem polygon_rateLimit_retry_witness :
    runPolygonRequest [(500 : ℚ)] [PolyResponse.rateLimited (some 2), PolyResponse.ok]
      = ⟨2, [2000 + 500], PolyOutcome.success⟩
    ∧ (2000 : ℚ) ≤ 2000 + 500
    ∧ (runPolygonRequest [(500 : ℚ)] [PolyResponse.rateLimited none]).waits.head?
      = some (rateLimitWait none + 500) :=
  polygon_rateLimit_retry 500 [] [] none (by norm_num)

/-! ## Claims C7, C8, C10: the subscription manager -/

theorem connectToSymbol_queue_eq (c : String → Bool) (st : WSState) (s : String) :
    ((connectToSymbol c st s).1).subscriptionQueue = st.subscriptionQueue := by
  unfold connectToSymbol
  split_ifs <;> rfl

theorem connectToSymbol_conns_superset (c : String → Bool) (st : WSState) (s : String) :
    st.connections ⊆ ((connectToSymbol c st s).1).connections := by
  unfold connectToSymbol
  split_ifs
  · exact fun _ h => h
  · exact fun t ht => List.mem_append_left _ ht
  · exact fun _ h => h

theorem connectToSymbol_conns_bound (c : String → Bool) (st : WSState) (s : String) :
    ∀ t ∈ ((connectToSymbol c st s).1).connections,
      t ∈ st.connections ∨ c t = true := by
  unfold connectToSymbol
  split_ifs with h1 h2
  · exact fun t ht => Or.inl ht
  · intro t ht
    rcases List.mem_append.1 ht with ht | ht
    · exact Or.inl ht
    · obtain rfl : t = s := by simpa using ht
      exact Or.inr h2
  · exact fun t ht => Or.inl ht

theorem connectToSymbol_ok_iff (c : String → Bool) (st : WSState) (s : String) :
    (connectToSymbol c st s).2 = true ↔ (s ∈ st.connections ∨ c s = true) := by
  unfold connectToSymbol
  split_ifs with h1 h2
  · simp [h1]
  · simp [h2]
  · simp [h1, h2]

theorem connectFold_flag (c : String → Bool) :
    ∀ (l : List String) (st : WSState) (b : Bool),
      ((l.foldl (connectFold c) (st, b)).2 = true ↔
        (b = true ∧ ∀ s ∈ l, s ∈ st.connections ∨ c s = true)) := by
  intro l
  induction l with
  | nil => intro st b; simp
  | cons s l ih =>
    intro st b
    rw [List.foldl_cons,
      show connectFold c (st, b) s
        = ((connectToSymbol c st s).1, b && (connectToSymbol c st s).2) from rfl, ih]
    constructor
    · rintro ⟨hb, hall⟩
      rw [Bool.and_eq_true] at hb
      refine ⟨hb.1, ?_⟩
      intro t ht
      rcases List.mem_cons.1 ht with rfl | htl
      · exact (connectToSymbol_ok_iff c st t).1 hb.2
      · rcases hall t htl with hc | hcc
        · exact connectToSymbol_conns_bound c st s t hc
        · exact Or.inr hcc
    · rintro ⟨hb, hall⟩
      constructor
      · rw [Bool.and_eq_true]
        exact ⟨hb, (connectToSymbol_ok_iff c st s).2 (hall s (List.mem_cons_self s l))⟩
      · intro t ht
        rcases hall t (List.mem_cons_of_mem _ ht) with hc | hcc
        · exact Or.inl (connectToSymbol_conns_superset c st s hc)
        · exact Or.inr hcc

/-- C7: one drain step of the subscription queue.  When any symbol of the
batch fails to connect (it has no live connection and the socket
constructor throws), the whole batch — successful symbols included — stays
in the pending queue; when every connect succeeds (or is already
connected), exactly the batch is removed. -/
theorem processSubscriptionQueue_batch_retry (cfg : WSConfig) (canConnect : String → Bool)
    (st : WSState) :
    ((∃ s ∈ st.subscriptionQueue.take cfg.subscriptionBatchSize,
        s ∉ st.connections ∧ canConnect s = false) →
      (processBatchStep cfg canConnect st).subscriptionQueue = st.subscriptionQueue)
    ∧ ((∀ s ∈ st.subscriptionQueue.take cfg.subscriptionBatchSize,
        s ∈ st.connections ∨ canConnect s = true) →
      (processBatchStep cfg canConnect st).subscriptionQueue
        = st.subscriptionQueue.filter
            (fun q => !(st.subscriptionQueue.take cfg.subscriptionBatchSize).contains q)) := by
  constructor
  · rintro ⟨s, hs, hnc, hcc⟩
    unfold processBatchStep
    cases hflag : ((st.subscriptionQueue.take cfg.subscriptionBatchSize).foldl
        (connectFold canConnect) (st, true)).2 with
    | true =>
      exfalso
      obtain ⟨-, hall⟩ := (connectFold_flag canConnect _ st true).1 hflag
      rcases hall s hs with h | h
      · exact hnc h
      · rw [hcc] at h
        exact Bool.false_ne_true h
    | false => simp [hflag]
  · intro hall
    unfold processBatchStep
    have hflag : ((st.subscriptionQueue.take cfg.subscriptionBatchSize).foldl
        (connectFold canConnect) (st, true)).2 = true :=
      (connectFold_flag canConnect _ st true).2 ⟨rfl, hall⟩
    simp [hflag]

theorem processSubscriptionQueue_batch_retry_witness :
    (processBatchStep {} (fun s => s != "B") ⟨[], [], ["A", "B"], 0⟩).subscriptionQueue
      = ["A", "B"] :=
  (processSubscriptionQueue_batch_retry {} (fun s => s != "B") ⟨[], [], ["A", "B"], 0⟩).1
    ⟨"B", by simp, by simp, by simp⟩

theorem assocGet_cons {β : Type} (e : String × β) (tl : List (String × β)) (k : String) :
    assocGet (e :: tl) k = if e.1 == k then some e.2 else assocGet tl k := by
  by_cases he : (e.1 == k) = true
  · simp [assocGet, List.find?_cons, he]
  · simp [assocGet, List.find?_cons, he]

theorem assocGet_assocSet_self {β : Type} (k : String) (v : β) :
    ∀ m : List (String × β), assocGet (assocSet m k v) k = some v := by
  intro m
  induction m with
  | nil => simp [assocSet, assocGet, List.find?]
  | cons e tl ih =>
    by_cases he : (e.1 == k) = true
    · have hany : ((e :: tl).any fun x => x.1 == k) = true := by
        simp [List.any_cons, he]
      unfold assocSet
      rw [if_pos hany, List.map_cons, if_pos he, assocGet_cons]
      simp
    · have he' : (e.1 == k) = false := by simpa using he
      by_cases ht : (tl.any fun x => x.1 == k) = true
      · have hany : ((e :: tl).any fun x => x.1 == k) = true := by
          simp [List.any_cons, ht]
        unfold assocSet
        rw [if_pos hany, List.map_cons, if_neg (by simp [he']), assocGet_cons,
          if_neg (by simp [he'])]
        unfold assocSet at ih
        rw [if_pos ht] at ih
        exact ih
      · have hany : ¬ ((e :: tl).any fun x => x.1 == k) = true := by
          simp [List.any_cons, he', ht]
        unfold assocSet
        rw [if_neg hany, List.cons_append, assocGet_cons, if_neg (by simp [he'])]
        unfold assocSet at ih
        rw [if_neg ht] at ih
        exact ih

/-- C8 (bug exhibit): a connected symbol's socket closes once.
`handleDisconnection` increments the attempt counter and calls
`connectToSymbol`, but the dead socket was never removed from
`this.connections`, so `connectToSymbol` returns at its first guard: the
state after the close differs only in the counter — `socketsCreated` is
unchanged even though `canConnect` is identically true, i.e. NO reconnect
is ever issued, the symbol can never return to a connected state, and the
claimed auto-unsubscribe after 5 failed reconnects is unreachable. -/
theorem handleDisconnection_no_reconnect :
    handleDisconnection {} (fun _ => true) ⟨["AAPL"], [("AAPL", 0)], [], 1⟩ "AAPL"
      = ⟨["AAPL"], [("AAPL", 1)], [], 1⟩ := by
  simp [handleDisconnection, connectToSymbol, assocGet, assocSet, List.find?]

/-- C10: `connectToSymbol` on a symbol with no registered connection whose
socket constructor succeeds registers the connection and resets the
symbol's reconnect-attempt counter to 0; on an already-registered symbol it
is a no-op returning success. -/
theorem connectToSymbol_attempt_reset (canConnect : String → Bool) (st : WSState)
    (s : String) :
    (s ∉ st.connections → canConnect s = true →
      assocGet ((connectToSymbol canConnect st s).1).reconnectAttempts s = some 0
      ∧ s ∈ ((connectToSymbol canConnect st s).1).connections
      ∧ (connectToSymbol canConnect st s).2 = true)
    ∧ (s ∈ st.connections → connectToSymbol canConnect st s = (st, true)) := by
  constructor
  · intro hn hc
    unfold connectToSymbol
    rw [if_neg hn, if_pos hc]
    exact ⟨assocGet_assocSet_self s 0 st.reconnectAttempts, by simp, rfl⟩
  · intro hmem
    unfold connectToSymbol
    rw [if_pos hmem]

theorem connectToSymbol_attempt_reset_witness :
    assocGet ((connectToSymbol (fun _ => true)
        ⟨[], [("AAPL", 3)], [], 0⟩ "AAPL").1).reconnectAttempts "AAPL" = some 0
    ∧ "AAPL" ∈ ((connectToSymbol (fun _ => true)
        ⟨[], [("AAPL", 3)], [], 0⟩ "AAPL").1).connections
    ∧ (connectToSymbol (fun _ => true) ⟨[], [("AAPL", 3)], [], 0⟩ "AAPL").2 = true :=
  (connectToSymbol_attempt_reset (fun _ => true) ⟨[], [("AAPL", 3)], [], 0⟩ "AAPL").1
    (by simp) rfl

/-! ## Claim C9: the reconciler's batched delivery -/

theorem assocGet_map_replace {β : Type} (k : String) (v : β) (s : String) (hsk : s ≠ k) :
    ∀ tl : List (String × β),
      assocGet (tl.map fun x => if x.1 == k then (k, v) else x) s = assocGet tl s := by
  intro tl
  induction tl with
  | nil => rfl
  | cons e tl ih =>
    rw [List.map_cons, assocGet_cons, assocGet_cons]
    by_cases he : (e.1 == k) = true
    · rw [if_pos he]
      have hek : e.1 = k := by simpa using he
      have h1 : (k == s) = false := by
        simp only [beq_eq_false_iff_ne, ne_eq]
        exact fun hh => hsk hh.symm
      have h2 : (e.1 == s) = false := by
        rw [hek]
        exact h1
      rw [h1, h2]
      simp only [Bool.false_eq_true, if_false]
      exact ih
    · rw [if_neg he]
      by_cases hes : (e.1 == s) = true
      · rw [hes]
        simp
      · have hes' : (e.1 == s) = false := by simpa using hes
        rw [hes']
        simp only [Bool.false_eq_true, if_false]
        exact ih

theorem assocGet_append_single {β : Type} (k : String) (v : β) (s : String) (hsk : s ≠ k) :
    ∀ tl : List (String × β), assocGet (tl ++ [(k, v)]) s = assocGet tl s := by
  intro tl
  induction tl with
  | nil =>
    have h1 : (k == s) = false := by
      simp only [beq_eq_false_iff_ne, ne_eq]
      exact fun hh => hsk hh.symm
    simp [assocGet, List.find?, h1]
  | cons e tl ih =>
    rw [List.cons_append, assocGet_cons, assocGet_cons]
    by_cases hes : (e.1 == s) = true
    · rw [hes]
      simp
    · have hes' : (e.1 == s) = false := by simpa using hes
      rw [hes']
      simp only [Bool.false_eq_true, if_false]
      exact ih

theorem assocGet_assocSet {β : Type} (k : String) (v : β) (s : String)
    (m : List (String × β)) :
    assocGet (assocSet m k v) s = if s = k then some v else assocGet m s := by
  by_cases hsk : s = k
  · subst hsk
    rw [if_pos rfl]
    exact assocGet_assocSet_self s v m
  · rw [if_neg hsk]
    unfold assocSet
    split_ifs with ha
    · exact assocGet_map_replace k v s hsk m
    · exact assocGet_append_single k v s hsk m

theorem assocSet_keys {β : Type} (k : String) (v : β) (m : List (String × β)) :
    (assocSet m k v).map Prod.fst =
      if (m.any fun x => x.1 == k) then m.map Prod.fst else m.map Prod.fst ++ [k] := by
  unfold assocSet
  split_ifs with ha
  · rw [List.map_map]
    apply List.map_congr_left
    intro x hx
    by_cases hxk : (x.1 == k) = true
    · simp only [Function.comp, hxk, if_pos]
      exact ((by simpa using hxk : x.1 = k)).symm
    · simp only [Function.comp]
      rw [if_neg hxk]
  · simp

theorem nodup_keys_assocSet {β : Type} (k : String) (v : β) (m : List (String × β))
    (h : (m.map Prod.fst).Nodup) : ((assocSet m k v).map Prod.fst).Nodup := by
  rw [assocSet_keys]
  split_ifs with ha
  · exact h
  · rw [List.nodup_append]
    refine ⟨h, List.nodup_singleton k, ?_⟩
    intro a haa hak
    obtain rfl : a = k := by simpa using hak
    obtain ⟨x, hx, hxk⟩ := List.mem_map.1 haa
    exact absurd (List.any_eq_true.2 ⟨x, hx, by simp [hxk]⟩) ha

theorem mem_assocSet {β : Type} {k : String} {v : β} {m : List (String × β)}
    {e : String × β} (h : e ∈ assocSet m k v) : e = (k, v) ∨ e ∈ m := by
  unfold assocSet at h
  split_ifs at h with ha
  · obtain ⟨x, hx, hxe⟩ := List.mem_map.1 h
    by_cases hxk : (x.1 == k) = true
    · rw [if_pos hxk] at hxe
      exact Or.inl hxe.symm
    · rw [if_neg hxk] at hxe
      exact Or.inr (hxe ▸ hx)
  · rcases List.mem_append.1 h with h | h
    · exact Or.inr h
    · exact Or.inl (by simpa using h)

theorem assocGet_of_mem {β : Type} :
    ∀ {m : List (String × β)}, (m.map Prod.fst).Nodup → ∀ {e : String × β}, e ∈ m →
      assocGet m e.1 = some e.2 := by
  intro m
  induction m with
  | nil => intro _ e he; exact absurd he (List.not_mem_nil e)
  | cons f tl ih =>
    intro hnd e he
    rw [List.map_cons, List.nodup_cons] at hnd
    rcases List.mem_cons.1 he with rfl | he
    · rw [assocGet_cons, if_pos (by simp)]
    · have hne : (f.1 == e.1) = false := by
        simp only [beq_eq_false_iff_ne, ne_eq]
        intro hh
        exact hnd.1 (hh ▸ List.mem_map.2 ⟨e, he, rfl⟩)
      rw [assocGet_cons, hne]
      simp only [Bool.false_eq_true, if_false]
      exact ih hnd.2 he

theorem reconcilerState_WF (evs : List REvent) :
    ((reconcilerState evs).map Prod.fst).Nodup ∧
      ∀ e ∈ reconcilerState evs, e.2.symbol = e.1 := by
  suffices h : ∀ m0 : List (String × StockUpdate), (m0.map Prod.fst).Nodup →
      (∀ e ∈ m0, e.2.symbol = e.1) →
      ((evs.foldl reconcilerStep m0).map Prod.fst).Nodup ∧
        ∀ e ∈ evs.foldl reconcilerStep m0, e.2.symbol = e.1 by
    exact h [] (by simp) (by simp)
  induction evs with
  | nil => exact fun m0 h1 h2 => ⟨h1, h2⟩
  | cons e tl ih =>
    intro m0 h1 h2
    rw [List.foldl_cons]
    apply ih
    · cases e with
      | flush => exact h1
      | message m =>
        show ((reconcilerProcessMessage m0 m).map Prod.fst).Nodup
        unfold reconcilerProcessMessage
        split_ifs with ht
        · exact h1
        · exact nodup_keys_assocSet m.symbol (toStockUpdate m) m0 h1
    · cases e with
      | flush => exact h2
      | message m =>
        show ∀ e ∈ reconcilerProcessMessage m0 m, e.2.symbol = e.1
        unfold reconcilerProcessMessage
        split_ifs with ht
        · exact h2
        · intro x hx
          rcases mem_assocSet hx with rfl | hx
          · rfl
          · exact h2 x hx

theorem lastUpdateFrom_cons_msg (a : Option StockUpdate) (m : WebSocketMessage)
    (tl : List REvent) (s : String) :
    lastUpdateFrom a (REvent.message m :: tl) s =
      lastUpdateFrom
        (if m.type ≠ MsgType.error ∧ m.symbol = s then some (toStockUpdate m) else a)
        tl s := rfl

theorem lastUpdateFrom_cons_flush (a : Option StockUpdate) (tl : List REvent)
    (s : String) :
    lastUpdateFrom a (REvent.flush :: tl) s = lastUpdateFrom a tl s := rfl

theorem assocGet_reconciler_fold (s : String) :
    ∀ (evs : List REvent) (m0 : List (String × StockUpdate)),
      assocGet (evs.foldl reconcilerStep m0) s = lastUpdateFrom (assocGet m0 s) evs s := by
  intro evs
  induction evs with
  | nil => intro m0; rfl
  | cons e tl ih =>
    intro m0
    rw [List.foldl_cons, ih (reconcilerStep m0 e)]
    cases e with
    | flush =>
      rw [lastUpdateFrom_cons_flush]
      rfl
    | message m =>
      rw [lastUpdateFrom_cons_msg]
      congr 1
      show assocGet (reconcilerProcessMessage m0 m) s = _
      unfold reconcilerProcessMessage
      by_cases ht : m.type = MsgType.error
      · simp [ht]
      · rw [if_neg ht, assocGet_assocSet]
        by_cases hs : m.symbol = s
        · subst hs
          simp [ht]
        · rw [if_neg (fun hh => hs hh.symm), if_neg (fun hh => hs hh.2)]

/-- C9 (amended): at every point of every event trace, a flush of the
batched mode delivers at most one update per symbol, and for each delivered
update it is the LATEST update received for that symbol over the WHOLE
trace so far (last-write-wins); equivalently, the update map holds exactly
the last received update of each symbol.  The claim's restriction "only for
symbols whose update arrived since the previous flush" does not hold: the
map is never cleared, so every flush redelivers every symbol ever updated
(see the counterexample). -/
theorem reconciler_flush_lastwrite (evs : List REvent) :
    ((flushDelivered (reconcilerState evs)).map StockUpdate.symbol).Nodup
    ∧ (∀ u ∈ flushDelivered (reconcilerState evs), lastUpdateSpec evs u.symbol = some u)
    ∧ (∀ s, assocGet (reconcilerState evs) s = lastUpdateSpec evs s) := by
  obtain ⟨hnd, hsym⟩ := reconcilerState_WF evs
  have hget : ∀ s, assocGet (reconcilerState evs) s = lastUpdateSpec evs s := fun s =>
    assocGet_reconciler_fold s evs []
  refine ⟨?_, ?_, hget⟩
  · unfold flushDelivered
    split_ifs
    · rw [List.map_map]
      have heq : (reconcilerState evs).map (StockUpdate.symbol ∘ Prod.snd)
          = (reconcilerState evs).map Prod.fst :=
        List.map_congr_left fun e he => hsym e he
      rw [heq]
      exact hnd
    · simp
  · intro u hu
    unfold flushDelivered at hu
    split_ifs at hu
    · obtain ⟨e, he, rfl⟩ := List.mem_map.1 hu
      rw [hsym e he, ← hget e.1]
      exact assocGet_of_mem hnd he
    · exact absurd hu (List.not_mem_nil u)

/-- C9 (counterexample): one trade message for AAPL followed by two flushes
with NO message in between: the second flush still delivers AAPL's update —
the map is never cleared — contradicting "only for symbols whose
StockUpdate arrived since the previous flush" (the second flush would have
to deliver nothing). -/
theorem reconciler_stale_redelivery_cex :
    reconcilerFlushes [REvent.message msgC9, REvent.flush, REvent.flush]
      = [[toStockUpdate msgC9], [toStockUpdate msgC9]]
    ∧ ([toStockUpdate msgC9] : List StockUpdate) ≠ [] := by
  constructor
  · simp [reconcilerFlushes, reconcilerProcessMessage, msgC9, assocSet, flushDelivered,
      toStockUpdate]
  · simp

end StockIt
